import Mathlib

set_option maxHeartbeats 1000000

/-!
A shallow embedding of the `puzzle-cube` Rust crate (an NxNxN twisty-cube
model) together with proofs about its specification.

The embedding follows the source files:
* `src/error.rs`    → `PuzzleCube.Error`
* `src/cubit.rs`    → `PuzzleCube.Cubit` (the 3x4 matrix `inner` is kept as
  its four columns: position and the three orientation vectors; rotating is
  left multiplication of every column, exactly as `rot * inner`)
* `src/movement.rs` → `Layer`/`LayerInner`/`Axis`/`AxisInner`/`MoveType`/`Move`
  and the nine `ROT_MAT_*` constants
* `src/cube.rs`     → `PuzzleCube.Cube` with `with_number_sides` and `rotate`

Rust `usize` values that are only ever used small and non-negative are
modelled as `Nat`; `isize` coordinates are modelled as `Int`.  Fallible
functions return `Except Error _`; the `expect` (panic) inside
`Move::normalize_axis_move_type` is modelled as an `Option` whose `none`
branch is proved unreachable.
-/

namespace PuzzleCube

/-- Error enum from `src/error.rs`. -/
inductive Error where
  | InvalidNumberSides (n : Nat) : Error
  | AxisConvert : Error
  | InvalidMoveLayer : Error
deriving DecidableEq, Repr

/-- Integer 3-vector (`nalgebra::Vector3<isize>`). -/
structure Vec3 where
  x : Int
  y : Int
  z : Int
deriving DecidableEq, Repr

/-- Row-major integer 3x3 matrix (`nalgebra::Matrix3<isize>`); `mij` is the
entry in row `i`, column `j`, matching the argument order of
`Matrix3::new`. -/
structure Mat3 where
  m00 : Int
  m01 : Int
  m02 : Int
  m10 : Int
  m11 : Int
  m12 : Int
  m20 : Int
  m21 : Int
  m22 : Int
deriving DecidableEq, Repr

/-- Matrix-vector product. -/
def Mat3.mulVec (m : Mat3) (v : Vec3) : Vec3 :=
  ⟨m.m00 * v.x + m.m01 * v.y + m.m02 * v.z,
   m.m10 * v.x + m.m11 * v.y + m.m12 * v.z,
   m.m20 * v.x + m.m21 * v.y + m.m22 * v.z⟩

/-- Matrix-matrix product. -/
def Mat3.mul (a b : Mat3) : Mat3 :=
  ⟨a.m00 * b.m00 + a.m01 * b.m10 + a.m02 * b.m20,
   a.m00 * b.m01 + a.m01 * b.m11 + a.m02 * b.m21,
   a.m00 * b.m02 + a.m01 * b.m12 + a.m02 * b.m22,
   a.m10 * b.m00 + a.m11 * b.m10 + a.m12 * b.m20,
   a.m10 * b.m01 + a.m11 * b.m11 + a.m12 * b.m21,
   a.m10 * b.m02 + a.m11 * b.m12 + a.m12 * b.m22,
   a.m20 * b.m00 + a.m21 * b.m10 + a.m22 * b.m20,
   a.m20 * b.m01 + a.m21 * b.m11 + a.m22 * b.m21,
   a.m20 * b.m02 + a.m21 * b.m12 + a.m22 * b.m22⟩

/-- The identity matrix. -/
def Mat3.identity : Mat3 := ⟨1, 0, 0, 0, 1, 0, 0, 0, 1⟩

/-- Dot product of integer 3-vectors. -/
def Vec3.dot (u v : Vec3) : Int := u.x * v.x + u.y * v.y + u.z * v.z

/-- A single piece of the puzzle (`src/cubit.rs`).  The Rust struct packs a
3x4 matrix whose columns are the position, the x-facing, the y-facing and the
z-facing vector; here the four columns are separate fields. -/
structure Cubit where
  pos : Vec3
  xaxis : Vec3
  yaxis : Vec3
  zaxis : Vec3
deriving DecidableEq, Repr

/-- `Cubit::new`. -/
def Cubit.new (pos xaxis yaxis zaxis : Vec3) : Cubit :=
  ⟨pos, xaxis, yaxis, zaxis⟩

/-- `Cubit::std_from_position`: standard orientation at a given position. -/
def Cubit.std_from_position (pos : Vec3) : Cubit :=
  Cubit.new pos ⟨1, 0, 0⟩ ⟨0, 1, 0⟩ ⟨0, 0, 1⟩

/-- `Cubit::get_position`. -/
def Cubit.get_position (c : Cubit) : Vec3 := c.pos

/-- `Cubit::rotate`: `inner := rot * inner`, i.e. every column is
left-multiplied by `rot`. -/
def Cubit.rotate (c : Cubit) (rot : Mat3) : Cubit :=
  ⟨rot.mulVec c.pos, rot.mulVec c.xaxis, rot.mulVec c.yaxis, rot.mulVec c.zaxis⟩

/-- `LayerInner` from `src/movement.rs`. -/
inductive LayerInner where
  | Single (l : Nat) : LayerInner
  | Multiple (l : Nat) : LayerInner
  | WholeCube : LayerInner
deriving DecidableEq, Repr

/-- Public `Layer` from `src/movement.rs`. -/
inductive Layer where
  | Single (l : Nat) : Layer
  | Multiple (l : Nat) : Layer
deriving DecidableEq, Repr

/-- `From<Layer> for LayerInner`. -/
def LayerInner.fromLayer : Layer → LayerInner
  | .Single s => .Single s
  | .Multiple m => .Multiple m

/-- Crate-internal six-way directional axis. -/
inductive AxisInner where
  | X : AxisInner
  | NegX : AxisInner
  | Y : AxisInner
  | NegY : AxisInner
  | Z : AxisInner
  | NegZ : AxisInner
deriving DecidableEq, Repr

/-- Public three-way canonical axis. -/
inductive Axis where
  | X : Axis
  | Y : Axis
  | Z : Axis
deriving DecidableEq, Repr

/-- `From<Axis> for AxisInner`. -/
def AxisInner.fromAxis : Axis → AxisInner
  | .X => .X
  | .Y => .Y
  | .Z => .Z

/-- `TryFrom<AxisInner> for Axis` — fails on the negative variants. -/
def Axis.tryFromInner : AxisInner → Except Error Axis
  | .X => .ok .X
  | .Y => .ok .Y
  | .Z => .ok .Z
  | .NegX => .error Error.AxisConvert
  | .NegY => .error Error.AxisConvert
  | .NegZ => .error Error.AxisConvert

/-- Turn type. -/
inductive MoveType where
  | Clockwise : MoveType
  | CounterClockwise : MoveType
  | Twice : MoveType
deriving DecidableEq, Repr

/-- `MoveType::opposite`. -/
def MoveType.opposite : MoveType → MoveType
  | .Clockwise => .CounterClockwise
  | .CounterClockwise => .Clockwise
  | .Twice => .Twice

/-- `Move` from `src/movement.rs`. -/
structure Move where
  move_type : MoveType
  axis : AxisInner
  affected_range : LayerInner
deriving DecidableEq, Repr

/-- `Move::rotate_top`. -/
def Move.rotate_top (layer : Layer) (move_type : MoveType) : Move :=
  ⟨move_type, .Z, .fromLayer layer⟩

/-- `Move::rotate_bottom`. -/
def Move.rotate_bottom (layer : Layer) (move_type : MoveType) : Move :=
  ⟨move_type, .NegZ, .fromLayer layer⟩

/-- `Move::rotate_left`. -/
def Move.rotate_left (layer : Layer) (move_type : MoveType) : Move :=
  ⟨move_type, .NegY, .fromLayer layer⟩

/-- `Move::rotate_right`. -/
def Move.rotate_right (layer : Layer) (move_type : MoveType) : Move :=
  ⟨move_type, .Y, .fromLayer layer⟩

/-- `Move::rotate_front`. -/
def Move.rotate_front (layer : Layer) (move_type : MoveType) : Move :=
  ⟨move_type, .X, .fromLayer layer⟩

/-- `Move::rotate_back`. -/
def Move.rotate_back (layer : Layer) (move_type : MoveType) : Move :=
  ⟨move_type, .NegX, .fromLayer layer⟩

/-- `Move::rotate_cube`. -/
def Move.rotate_cube (axis : Axis) (move_type : MoveType) : Move :=
  ⟨move_type, .fromAxis axis, .WholeCube⟩

/-- `ROT_MAT_Z_CW` (`Matrix3::new(0, 1, 0, -1, 0, 0, 0, 0, 1)`). -/
def ROT_MAT_Z_CW : Mat3 := ⟨0, 1, 0, -1, 0, 0, 0, 0, 1⟩
/-- `ROT_MAT_Z_CCW`. -/
def ROT_MAT_Z_CCW : Mat3 := ⟨0, -1, 0, 1, 0, 0, 0, 0, 1⟩
/-- `ROT_MAT_Z_2`. -/
def ROT_MAT_Z_2 : Mat3 := ⟨-1, 0, 0, 0, -1, 0, 0, 0, 1⟩
/-- `ROT_MAT_Y_CW`. -/
def ROT_MAT_Y_CW : Mat3 := ⟨0, 0, -1, 0, 1, 0, 1, 0, 0⟩
/-- `ROT_MAT_Y_CCW`. -/
def ROT_MAT_Y_CCW : Mat3 := ⟨0, 0, 1, 0, 1, 0, -1, 0, 0⟩
/-- `ROT_MAT_Y_2`. -/
def ROT_MAT_Y_2 : Mat3 := ⟨-1, 0, 0, 0, 1, 0, 0, 0, -1⟩
/-- `ROT_MAT_X_CW`. -/
def ROT_MAT_X_CW : Mat3 := ⟨1, 0, 0, 0, 0, 1, 0, -1, 0⟩
/-- `ROT_MAT_X_CCW`. -/
def ROT_MAT_X_CCW : Mat3 := ⟨1, 0, 0, 0, 0, -1, 0, 1, 0⟩
/-- `ROT_MAT_X_2`. -/
def ROT_MAT_X_2 : Mat3 := ⟨1, 0, 0, 0, -1, 0, 0, 0, -1⟩

/-- `Move::normalize_axis_move_type`.  The `.expect` on the conversion in
the Rust source (a potential panic) is modelled by returning `none`. -/
def Move.normalize_axis_move_type (m : Move) : Option (Axis × MoveType) :=
  match m.axis with
  | .NegX => some (.X, m.move_type.opposite)
  | .NegY => some (.Y, m.move_type.opposite)
  | .NegZ => some (.Z, m.move_type.opposite)
  | .X | .Y | .Z =>
    match Axis.tryFromInner m.axis with
    | .ok a => some (a, m.move_type)
    | .error _ => none

/-- The nine-way table lookup done in the body of `Move::rotation_matrix`. -/
def rotMatFor : Axis → MoveType → Mat3
  | .X, .Clockwise => ROT_MAT_X_CW
  | .X, .CounterClockwise => ROT_MAT_X_CCW
  | .X, .Twice => ROT_MAT_X_2
  | .Y, .Clockwise => ROT_MAT_Y_CW
  | .Y, .CounterClockwise => ROT_MAT_Y_CCW
  | .Y, .Twice => ROT_MAT_Y_2
  | .Z, .Clockwise => ROT_MAT_Z_CW
  | .Z, .CounterClockwise => ROT_MAT_Z_CCW
  | .Z, .Twice => ROT_MAT_Z_2

/-- `Move::rotation_matrix`: normalize, then look up the matrix.  `none`
models the (unreachable) panic inside normalization. -/
def Move.rotation_matrix (m : Move) : Option Mat3 :=
  m.normalize_axis_move_type.map fun p => rotMatFor p.1 p.2

/-- `std::ops::RangeInclusive<isize>` as used by `cube.rs`. -/
structure RangeI where
  lo : Int
  hi : Int
deriving DecidableEq, Repr

/-- `RangeInclusive::contains`. -/
def RangeI.containsB (r : RangeI) (v : Int) : Bool :=
  decide (r.lo ≤ v) && decide (v ≤ r.hi)

/-- The whole puzzle (`src/cube.rs`). -/
structure Cube where
  sides : Nat
  cubits : List Cubit
deriving DecidableEq, Repr

namespace Cube

/-- `Cube::even_sides` (the helpers only read `self.sides`, so they are
modelled as functions of the side count). -/
def even_sides (sides : Nat) : Bool := sides % 2 == 0

/-- `Cube::offset`. -/
def offset (sides : Nat) : Nat :=
  if even_sides sides then sides - 1 else sides / 2

/-- `Cube::step`. -/
def step (sides : Nat) : Nat :=
  if even_sides sides then 2 else 1

/-- `Cube::index_to_coords`. -/
def index_to_coords (sides idx : Nat) : Vec3 :=
  ⟨((idx / sides) % sides : Nat) * (step sides : Int) - (offset sides : Int),
   ((idx % sides : Nat) : Int) * (step sides : Int) - (offset sides : Int),
   ((idx / sides ^ 2) % sides : Nat) * (step sides : Int) - (offset sides : Int)⟩

/-- The shell filter applied to each raw index inside
`Cube::with_number_sides`. -/
def shell_filter (sides i : Nat) : Bool :=
  ((i / sides) % sides) % (sides - 1) == 0
    || (i % sides) % (sides - 1) == 0
    || (i / sides ^ 2) % (sides - 1) == 0

/-- `Cube::with_number_sides`. -/
def with_number_sides (sides : Nat) : Except Error Cube :=
  if sides < 2 then .error (Error.InvalidNumberSides sides)
  else
    .ok ⟨sides, (List.range (sides ^ 3)).filterMap fun i =>
      if shell_filter sides i then
        some (Cubit.std_from_position (index_to_coords sides i))
      else none⟩

/-- `Cube::full_range`. -/
def full_range (sides : Nat) : RangeI :=
  ⟨(offset sides : Int) * (-1), (offset sides : Int)⟩

/-- `Cube::neg_layer`. -/
def neg_layer (sides layer : Nat) : RangeI :=
  ⟨(offset sides : Int) * (-1) + (layer : Int) * (step sides : Int),
   (offset sides : Int) * (-1) + (layer : Int) * (step sides : Int)⟩

/-- `Cube::pos_layer`. -/
def pos_layer (sides layer : Nat) : RangeI :=
  ⟨(offset sides : Int) - (layer : Int) * (step sides : Int),
   (offset sides : Int) - (layer : Int) * (step sides : Int)⟩

/-- `Cube::neg_range`. -/
def neg_range (sides layers : Nat) : RangeI :=
  ⟨(offset sides : Int) * (-1),
   (offset sides : Int) * (-1) + ((layers : Int) - 1) * (step sides : Int)⟩

/-- `Cube::pos_range`. -/
def pos_range (sides layers : Nat) : RangeI :=
  ⟨(offset sides : Int) - ((layers : Int) - 1) * (step sides : Int),
   (offset sides : Int)⟩

/-- The layer-validation guards at the top of `Cube::rotate`:
`Single(l)` is rejected when `l >= sides`, `Multiple(l)` when
`l > sides`. -/
def badLayer (sides : Nat) : LayerInner → Bool
  | .Single l => decide (sides ≤ l)
  | .Multiple l => decide (sides < l)
  | .WholeCube => false

/-- The `(x_range, y_range, z_range)` match inside `Cube::rotate`. -/
def resolveRanges (sides : Nat) (mv : Move) : RangeI × RangeI × RangeI :=
  match mv.affected_range with
  | .Single l =>
    match mv.axis with
    | .X => (pos_layer sides l, full_range sides, full_range sides)
    | .NegX => (neg_layer sides l, full_range sides, full_range sides)
    | .Y => (full_range sides, pos_layer sides l, full_range sides)
    | .NegY => (full_range sides, neg_layer sides l, full_range sides)
    | .Z => (full_range sides, full_range sides, pos_layer sides l)
    | .NegZ => (full_range sides, full_range sides, neg_layer sides l)
  | .Multiple l =>
    match mv.axis with
    | .X => (pos_range sides l, full_range sides, full_range sides)
    | .NegX => (neg_range sides l, full_range sides, full_range sides)
    | .Y => (full_range sides, pos_range sides l, full_range sides)
    | .NegY => (full_range sides, neg_range sides l, full_range sides)
    | .Z => (full_range sides, full_range sides, pos_range sides l)
    | .NegZ => (full_range sides, full_range sides, neg_range sides l)
  | .WholeCube => (full_range sides, full_range sides, full_range sides)

/-- The position test inside the rotation loop of `Cube::rotate`. -/
def inRanges (r : RangeI × RangeI × RangeI) (v : Vec3) : Bool :=
  r.1.containsB v.x && r.2.1.containsB v.y && r.2.2.containsB v.z

/-- `Cube::rotate`.  The `&mut self` mutation is modelled by returning the
new cube; the unreachable panic in `rotation_matrix` becomes the (never
taken) `Error.AxisConvert` branch. -/
def rotate (c : Cube) (mv : Move) : Except Error Cube :=
  if badLayer c.sides mv.affected_range then .error Error.InvalidMoveLayer
  else
    match mv.rotation_matrix with
    | none => .error Error.AxisConvert
    | some rot =>
      .ok ⟨c.sides, c.cubits.map fun cb =>
        if inRanges (resolveRanges c.sides mv) cb.pos then cb.rotate rot
        else cb⟩

end Cube

/-! ### Specification-level definitions

These express the spec's vocabulary (lattice, shell, orientation invariant,
inverted move, reachable states) in terms of the embedded code. -/

/-- A coordinate value lies on the per-axis lattice for `sides`: it has the
form `j * step - offset` for some index `0 ≤ j < sides` (spec §3). -/
def latticeCoord (sides : Nat) (v : Int) : Prop :=
  ∃ j, j < sides ∧ v = (j : Int) * (Cube.step sides : Int) - (Cube.offset sides : Int)

instance (sides : Nat) (v : Int) : Decidable (latticeCoord sides v) :=
  decidable_of_iff
    (∃ j ∈ Finset.range sides,
      v = (j : Int) * (Cube.step sides : Int) - (Cube.offset sides : Int))
    (by simp [latticeCoord])

/-- The shell rule (spec §3): at least one coordinate equals `±offset`. -/
def onShell (sides : Nat) (v : Vec3) : Prop :=
  v.x = (Cube.offset sides : Int) ∨ v.x = -(Cube.offset sides : Int) ∨
  v.y = (Cube.offset sides : Int) ∨ v.y = -(Cube.offset sides : Int) ∨
  v.z = (Cube.offset sides : Int) ∨ v.z = -(Cube.offset sides : Int)

instance (sides : Nat) (v : Vec3) : Decidable (onShell sides v) := by
  unfold onShell; infer_instance

/-- A position is on the coordinate lattice and on the outer shell. -/
def PosOk (sides : Nat) (v : Vec3) : Prop :=
  latticeCoord sides v.x ∧ latticeCoord sides v.y ∧ latticeCoord sides v.z ∧
    onShell sides v

instance (sides : Nat) (v : Vec3) : Decidable (PosOk sides v) := by
  unfold PosOk; infer_instance

/-- An integer unit vector along a coordinate axis (a signed standard basis
vector). -/
def isSignedBasis (v : Vec3) : Prop :=
  v = ⟨1, 0, 0⟩ ∨ v = ⟨-1, 0, 0⟩ ∨ v = ⟨0, 1, 0⟩ ∨ v = ⟨0, -1, 0⟩ ∨
  v = ⟨0, 0, 1⟩ ∨ v = ⟨0, 0, -1⟩

instance (v : Vec3) : Decidable (isSignedBasis v) := by
  unfold isSignedBasis; infer_instance

/-- The orientation invariant of a cubit: its three orientation vectors are
signed standard basis vectors and mutually orthogonal. -/
def OriOk (cb : Cubit) : Prop :=
  isSignedBasis cb.xaxis ∧ isSignedBasis cb.yaxis ∧ isSignedBasis cb.zaxis ∧
  cb.xaxis.dot cb.yaxis = 0 ∧ cb.xaxis.dot cb.zaxis = 0 ∧
  cb.yaxis.dot cb.zaxis = 0

instance (cb : Cubit) : Decidable (OriOk cb) := by
  unfold OriOk; infer_instance

/-- The move with the same axis and layer but the inverted turn
(`Clockwise ↔ CounterClockwise`, `Twice` unchanged). -/
def Move.invert (m : Move) : Move :=
  ⟨m.move_type.opposite, m.axis, m.affected_range⟩

/-- The canonical axis a directional axis targets. -/
def AxisInner.canonical : AxisInner → Axis
  | .X => .X
  | .NegX => .X
  | .Y => .Y
  | .NegY => .Y
  | .Z => .Z
  | .NegZ => .Z

/-- The coordinate of a vector along a canonical axis. -/
def Vec3.axisCoord (a : Axis) (v : Vec3) : Int :=
  match a with
  | .X => v.x
  | .Y => v.y
  | .Z => v.z

/-- The single coordinate value at depth `l` measured inward from the face
named by the directional axis: `+offset − l·step` for a positive-facing
direction, `−offset + l·step` for a negative-facing one (spec §4.4). -/
def singleDepthCoord (sides : Nat) (ax : AxisInner) (l : Nat) : Int :=
  match ax with
  | .X | .Y | .Z =>
    (Cube.offset sides : Int) - (l : Int) * (Cube.step sides : Int)
  | .NegX | .NegY | .NegZ =>
    -(Cube.offset sides : Int) + (l : Int) * (Cube.step sides : Int)

/-- All cubit positions lie inside the cube's full coordinate ranges. -/
def InBounds (c : Cube) : Prop :=
  ∀ cb ∈ c.cubits,
    -(Cube.offset c.sides : Int) ≤ cb.pos.x ∧ cb.pos.x ≤ (Cube.offset c.sides : Int) ∧
    -(Cube.offset c.sides : Int) ≤ cb.pos.y ∧ cb.pos.y ≤ (Cube.offset c.sides : Int) ∧
    -(Cube.offset c.sides : Int) ≤ cb.pos.z ∧ cb.pos.z ≤ (Cube.offset c.sides : Int)

instance (c : Cube) : Decidable (InBounds c) := by
  unfold InBounds; infer_instance

/-- The states reachable from construction with side count `s` by finitely
many successful `rotate` calls. -/
inductive Reachable (s : Nat) : Cube → Prop where
  | constructed (c : Cube) : Cube.with_number_sides s = .ok c → Reachable s c
  | step (c : Cube) (mv : Move) (c' : Cube) :
      Reachable s c → c.rotate mv = .ok c' → Reachable s c'

/-- The 2x2x2 cube used as a concrete witness input. -/
def cubeW : Cube := (Cube.with_number_sides 2).toOption.getD ⟨0, []⟩

/-- The 3x3x3 cube used as a concrete witness input. -/
def cubeW3 : Cube := (Cube.with_number_sides 3).toOption.getD ⟨0, []⟩

/-- `cubeW` after a clockwise quarter turn of the top layer. -/
def cubeW_top0 : Cube :=
  (cubeW.rotate (Move.rotate_top (.Single 0) .Clockwise)).toOption.getD ⟨0, []⟩

/-- `cubeW_top0` after the inverted move. -/
def cubeW_top0_inv : Cube :=
  (cubeW_top0.rotate ((Move.rotate_top (.Single 0) .Clockwise).invert)).toOption.getD ⟨0, []⟩

/-! ### Helper lemmas -/

/-- Axis normalization always succeeds and yields the canonical axis, so the
matrix lookup is total. -/
theorem normalize_total (m : Move) :
    ∃ t, m.normalize_axis_move_type = some (m.axis.canonical, t) ∧
      m.rotation_matrix = some (rotMatFor m.axis.canonical t) := by
  rcases m with ⟨mt, ax, r⟩
  cases ax <;> exact ⟨_, rfl, rfl⟩

theorem step_pos (s : Nat) : 1 ≤ Cube.step s := by
  unfold Cube.step; split <;> omega

theorem pos_range_zero_empty (s : Nat) (v : Int) :
    (Cube.pos_range s 0).containsB v = false := by
  have h1 : (1 : Int) ≤ (Cube.step s : Int) := by exact_mod_cast step_pos s
  rw [Bool.eq_false_iff, Ne, RangeI.containsB]
  simp only [Cube.pos_range, Bool.and_eq_true, decide_eq_true_eq]
  push_cast
  omega

theorem neg_range_zero_empty (s : Nat) (v : Int) :
    (Cube.neg_range s 0).containsB v = false := by
  have h1 : (1 : Int) ≤ (Cube.step s : Int) := by exact_mod_cast step_pos s
  rw [Bool.eq_false_iff, Ne, RangeI.containsB]
  simp only [Cube.neg_range, Bool.and_eq_true, decide_eq_true_eq]
  push_cast
  omega

theorem two_offset (s : Nat) (hs : 1 ≤ s) :
    2 * Cube.offset s = (s - 1) * Cube.step s := by
  unfold Cube.offset Cube.step Cube.even_sides
  split
  case isTrue h => rw [beq_iff_eq] at h; omega
  case isFalse h => rw [beq_iff_eq] at h; omega

theorem two_offset_int (s : Nat) (hs : 1 ≤ s) :
    (2 : Int) * (Cube.offset s : Int) = ((s : Int) - 1) * (Cube.step s : Int) := by
  have h := two_offset s hs
  have h' : ((2 * Cube.offset s : Nat) : Int) = (((s - 1) * Cube.step s : Nat) : Int) := by
    exact_mod_cast h
  push_cast [Nat.cast_sub hs] at h'
  exact_mod_cast h'

/-- Inverting a construction success: the side count was at least 2 and the
cube is the filtered shell enumeration. -/
theorem construct_ok (s : Nat) (c : Cube) (h : Cube.with_number_sides s = .ok c) :
    2 ≤ s ∧ c = ⟨s, (List.range (s ^ 3)).filterMap fun i =>
      if Cube.shell_filter s i then
        some (Cubit.std_from_position (Cube.index_to_coords s i))
      else none⟩ := by
  unfold Cube.with_number_sides at h
  by_cases h2 : s < 2
  · rw [if_pos h2] at h; cases h
  · rw [if_neg h2] at h
    cases h
    exact ⟨by omega, rfl⟩

/-- The one-value layer range at depth `l` from the negative face equals the
one at depth `sides - 1 - l` from the positive face. -/
theorem neg_layer_eq_pos_layer (s l : Nat) (hs : 1 ≤ s) (hl : l < s) :
    Cube.neg_layer s l = Cube.pos_layer s (s - 1 - l) := by
  have h2 := two_offset_int s hs
  have hc : ((s - 1 - l : Nat) : Int) = (s : Int) - 1 - (l : Int) := by omega
  have key : (Cube.offset s : Int) * (-1) + (l : Int) * (Cube.step s : Int) =
      (Cube.offset s : Int) - ((s - 1 - l : Nat) : Int) * (Cube.step s : Int) := by
    rw [hc]; linear_combination -h2
  rw [Cube.neg_layer, Cube.pos_layer, key]

/-- `rotate` only looks at the move through the validation guard, the
rotation matrix and the resolved ranges. -/
theorem rotate_congr (c : Cube) (m1 m2 : Move)
    (hb : Cube.badLayer c.sides m1.affected_range =
      Cube.badLayer c.sides m2.affected_range)
    (hm : m1.rotation_matrix = m2.rotation_matrix)
    (hr : Cube.resolveRanges c.sides m1 = Cube.resolveRanges c.sides m2) :
    c.rotate m1 = c.rotate m2 := by
  unfold Cube.rotate
  rw [hb, hm, hr]

theorem Mat3.mulVec_mul (a b : Mat3) (v : Vec3) :
    (a.mul b).mulVec v = a.mulVec (b.mulVec v) := by
  rcases a with ⟨a00, a01, a02, a10, a11, a12, a20, a21, a22⟩
  rcases b with ⟨b00, b01, b02, b10, b11, b12, b20, b21, b22⟩
  rcases v with ⟨x, y, z⟩
  simp only [Mat3.mul, Mat3.mulVec, Vec3.mk.injEq]
  refine ⟨by ring, by ring, by ring⟩

theorem Mat3.identity_mulVec (v : Vec3) : Mat3.identity.mulVec v = v := by
  rcases v with ⟨x, y, z⟩
  simp only [Mat3.identity, Mat3.mulVec, Vec3.mk.injEq]
  refine ⟨by ring, by ring, by ring⟩

theorem Cubit.rotate_rotate (cb : Cubit) (a b : Mat3) :
    (cb.rotate a).rotate b = cb.rotate (b.mul a) := by
  rcases cb with ⟨p, xa, ya, za⟩
  simp [Cubit.rotate, Mat3.mulVec_mul]

theorem Cubit.rotate_identity (cb : Cubit) : cb.rotate Mat3.identity = cb := by
  rcases cb with ⟨p, xa, ya, za⟩
  simp [Cubit.rotate, Mat3.identity_mulVec]

/-- Matrices for opposite turns about the same axis are mutual inverses. -/
theorem rotMat_opposite_mul (a : Axis) (t : MoveType) :
    (rotMatFor a t.opposite).mul (rotMatFor a t) = Mat3.identity := by
  cases a <;> cases t <;> decide

/-- Normalization data for a move and its turn-inverted move. -/
theorem normalize_invert_turn (m : Move) :
    ∃ t, m.normalize_axis_move_type = some (m.axis.canonical, t) ∧
      m.invert.normalize_axis_move_type = some (m.axis.canonical, t.opposite) ∧
      m.rotation_matrix = some (rotMatFor m.axis.canonical t) ∧
      m.invert.rotation_matrix = some (rotMatFor m.axis.canonical t.opposite) := by
  rcases m with ⟨mt, ax, r⟩
  cases ax <;> exact ⟨_, rfl, rfl, rfl, rfl⟩

/-- The X-family matrices preserve the x coordinate and act on (y, z) by a
signed permutation. -/
theorem famX (t : MoveType) (v : Vec3) :
    ((rotMatFor .X t).mulVec v).x = v.x ∧
    (((rotMatFor .X t).mulVec v).y = v.y ∨ ((rotMatFor .X t).mulVec v).y = -v.y ∨
     ((rotMatFor .X t).mulVec v).y = v.z ∨ ((rotMatFor .X t).mulVec v).y = -v.z) ∧
    (((rotMatFor .X t).mulVec v).z = v.y ∨ ((rotMatFor .X t).mulVec v).z = -v.y ∨
     ((rotMatFor .X t).mulVec v).z = v.z ∨ ((rotMatFor .X t).mulVec v).z = -v.z) := by
  cases t <;>
    (rcases v with ⟨x, y, z⟩
     simp only [rotMatFor, ROT_MAT_X_CW, ROT_MAT_X_CCW, ROT_MAT_X_2, Mat3.mulVec]
     omega)

/-- The Y-family matrices preserve the y coordinate and act on (x, z) by a
signed permutation. -/
theorem famY (t : MoveType) (v : Vec3) :
    ((rotMatFor .Y t).mulVec v).y = v.y ∧
    (((rotMatFor .Y t).mulVec v).x = v.x ∨ ((rotMatFor .Y t).mulVec v).x = -v.x ∨
     ((rotMatFor .Y t).mulVec v).x = v.z ∨ ((rotMatFor .Y t).mulVec v).x = -v.z) ∧
    (((rotMatFor .Y t).mulVec v).z = v.x ∨ ((rotMatFor .Y t).mulVec v).z = -v.x ∨
     ((rotMatFor .Y t).mulVec v).z = v.z ∨ ((rotMatFor .Y t).mulVec v).z = -v.z) := by
  cases t <;>
    (rcases v with ⟨x, y, z⟩
     simp only [rotMatFor, ROT_MAT_Y_CW, ROT_MAT_Y_CCW, ROT_MAT_Y_2, Mat3.mulVec]
     omega)

/-- The Z-family matrices preserve the z coordinate and act on (x, y) by a
signed permutation. -/
theorem famZ (t : MoveType) (v : Vec3) :
    ((rotMatFor .Z t).mulVec v).z = v.z ∧
    (((rotMatFor .Z t).mulVec v).x = v.x ∨ ((rotMatFor .Z t).mulVec v).x = -v.x ∨
     ((rotMatFor .Z t).mulVec v).x = v.y ∨ ((rotMatFor .Z t).mulVec v).x = -v.y) ∧
    (((rotMatFor .Z t).mulVec v).y = v.x ∨ ((rotMatFor .Z t).mulVec v).y = -v.x ∨
     ((rotMatFor .Z t).mulVec v).y = v.y ∨ ((rotMatFor .Z t).mulVec v).y = -v.y) := by
  cases t <;>
    (rcases v with ⟨x, y, z⟩
     simp only [rotMatFor, ROT_MAT_Z_CW, ROT_MAT_Z_CCW, ROT_MAT_Z_2, Mat3.mulVec]
     omega)

/-- For a move targeting the X direction, the resolved ranges restrict only
the x axis. -/
theorem resolve_shape_x (sides : Nat) (mt : MoveType) (r : LayerInner)
    (ax : AxisInner) (hax : ax = .X ∨ ax = .NegX) :
    ∃ R, Cube.resolveRanges sides ⟨mt, ax, r⟩ =
      (R, Cube.full_range sides, Cube.full_range sides) := by
  rcases hax with rfl | rfl <;> cases r <;> exact ⟨_, rfl⟩

/-- For a move targeting the Y direction, the resolved ranges restrict only
the y axis. -/
theorem resolve_shape_y (sides : Nat) (mt : MoveType) (r : LayerInner)
    (ax : AxisInner) (hax : ax = .Y ∨ ax = .NegY) :
    ∃ R, Cube.resolveRanges sides ⟨mt, ax, r⟩ =
      (Cube.full_range sides, R, Cube.full_range sides) := by
  rcases hax with rfl | rfl <;> cases r <;> exact ⟨_, rfl⟩

/-- For a move targeting the Z direction, the resolved ranges restrict only
the z axis. -/
theorem resolve_shape_z (sides : Nat) (mt : MoveType) (r : LayerInner)
    (ax : AxisInner) (hax : ax = .Z ∨ ax = .NegZ) :
    ∃ R, Cube.resolveRanges sides ⟨mt, ax, r⟩ =
      (Cube.full_range sides, Cube.full_range sides, R) := by
  rcases hax with rfl | rfl <;> cases r <;> exact ⟨_, rfl⟩

/-- A cubit selected by a move's resolved ranges is still selected after
being rotated by any matrix of the move's canonical-axis family: the
targeted coordinate is preserved exactly, and the two full ranges are
symmetric, hence stable under the signed permutation of the other two
coordinates. -/
theorem inRanges_preserved (sides : Nat) (mv : Move) (t : MoveType) (v : Vec3)
    (hv : Cube.inRanges (Cube.resolveRanges sides mv) v = true) :
    Cube.inRanges (Cube.resolveRanges sides mv)
      ((rotMatFor mv.axis.canonical t).mulVec v) = true := by
  rcases mv with ⟨mt, ax, r⟩
  cases ax
  case X =>
    obtain ⟨R, hR⟩ := resolve_shape_x sides mt r .X (Or.inl rfl)
    rw [hR] at hv ⊢
    obtain ⟨hc, hy, hz⟩ := famX t v
    simp only [Cube.inRanges, RangeI.containsB, Cube.full_range,
      AxisInner.canonical, Bool.and_eq_true, decide_eq_true_eq] at hv ⊢
    rw [hc]
    omega
  case NegX =>
    obtain ⟨R, hR⟩ := resolve_shape_x sides mt r .NegX (Or.inr rfl)
    rw [hR] at hv ⊢
    obtain ⟨hc, hy, hz⟩ := famX t v
    simp only [Cube.inRanges, RangeI.containsB, Cube.full_range,
      AxisInner.canonical, Bool.and_eq_true, decide_eq_true_eq] at hv ⊢
    rw [hc]
    omega
  case Y =>
    obtain ⟨R, hR⟩ := resolve_shape_y sides mt r .Y (Or.inl rfl)
    rw [hR] at hv ⊢
    obtain ⟨hc, hx, hz⟩ := famY t v
    simp only [Cube.inRanges, RangeI.containsB, Cube.full_range,
      AxisInner.canonical, Bool.and_eq_true, decide_eq_true_eq] at hv ⊢
    rw [hc]
    omega
  case NegY =>
    obtain ⟨R, hR⟩ := resolve_shape_y sides mt r .NegY (Or.inr rfl)
    rw [hR] at hv ⊢
    obtain ⟨hc, hx, hz⟩ := famY t v
    simp only [Cube.inRanges, RangeI.containsB, Cube.full_range,
      AxisInner.canonical, Bool.and_eq_true, decide_eq_true_eq] at hv ⊢
    rw [hc]
    omega
  case Z =>
    obtain ⟨R, hR⟩ := resolve_shape_z sides mt r .Z (Or.inl rfl)
    rw [hR] at hv ⊢
    obtain ⟨hc, hx, hy⟩ := famZ t v
    simp only [Cube.inRanges, RangeI.containsB, Cube.full_range,
      AxisInner.canonical, Bool.and_eq_true, decide_eq_true_eq] at hv ⊢
    rw [hc]
    omega
  case NegZ =>
    obtain ⟨R, hR⟩ := resolve_shape_z sides mt r .NegZ (Or.inr rfl)
    rw [hR] at hv ⊢
    obtain ⟨hc, hx, hy⟩ := famZ t v
    simp only [Cube.inRanges, RangeI.containsB, Cube.full_range,
      AxisInner.canonical, Bool.and_eq_true, decide_eq_true_eq] at hv ⊢
    rw [hc]
    omega

/-- Explicit form of a successful `rotate`. -/
theorem rotate_eq_ok (c : Cube) (mv : Move) (rot : Mat3)
    (hb : ¬ Cube.badLayer c.sides mv.affected_range = true)
    (hm : mv.rotation_matrix = some rot) :
    c.rotate mv = .ok ⟨c.sides, c.cubits.map fun cb =>
      if Cube.inRanges (Cube.resolveRanges c.sides mv) cb.pos then
        cb.rotate rot
      else cb⟩ := by
  unfold Cube.rotate
  rw [if_neg hb, hm]

/-- Inversion of a successful `rotate`: the guard was false and the result is
the range-gated map. -/
theorem rotate_ok_inv (c c1 : Cube) (mv : Move) (h : c.rotate mv = .ok c1) :
    ¬ Cube.badLayer c.sides mv.affected_range = true ∧
    ∃ t, mv.normalize_axis_move_type = some (mv.axis.canonical, t) ∧
      c1 = ⟨c.sides, c.cubits.map fun cb =>
        if Cube.inRanges (Cube.resolveRanges c.sides mv) cb.pos then
          cb.rotate (rotMatFor mv.axis.canonical t)
        else cb⟩ := by
  obtain ⟨t, hn, hm⟩ := normalize_total mv
  by_cases hb : Cube.badLayer c.sides mv.affected_range = true
  · unfold Cube.rotate at h; rw [if_pos hb] at h; cases h
  · refine ⟨hb, t, hn, ?_⟩
    rw [rotate_eq_ok c mv _ hb hm] at h
    injection h with h'
    exact h'.symm

/-- Applying the turn-inverted move after a successful `rotate` restores the
original cube. -/
theorem rotate_invert (c c1 : Cube) (m : Move) (h1 : c.rotate m = .ok c1) :
    c1.rotate m.invert = .ok c := by
  obtain ⟨tA, hnA, hnB, hmA, hmB⟩ := normalize_invert_turn m
  rcases c with ⟨sides, cubits⟩
  obtain ⟨hb, t', hn', hc1⟩ := rotate_ok_inv _ c1 m h1
  have ht : tA = t' := by
    rw [hnA] at hn'
    injection hn' with h''
    exact congrArg Prod.snd h''
  cases ht
  subst hc1
  dsimp only at hb ⊢
  rw [rotate_eq_ok _ m.invert _ (by exact hb) hmB]
  refine congrArg Except.ok ?_
  dsimp only
  have hRR : Cube.resolveRanges sides m.invert = Cube.resolveRanges sides m := rfl
  rw [List.map_map, hRR]
  have hpt : ∀ cb ∈ cubits,
      ((fun cb =>
          if Cube.inRanges (Cube.resolveRanges sides m) cb.pos then
            cb.rotate (rotMatFor m.axis.canonical tA.opposite)
          else cb) ∘
        fun cb =>
          if Cube.inRanges (Cube.resolveRanges sides m) cb.pos then
            cb.rotate (rotMatFor m.axis.canonical tA)
          else cb) cb = cb := by
    intro cb _
    by_cases hsel : Cube.inRanges (Cube.resolveRanges sides m) cb.pos = true
    · have hsel2 := inRanges_preserved sides m tA cb.pos hsel
      simp only [Function.comp_apply, if_pos hsel]
      have hpos : (cb.rotate (rotMatFor m.axis.canonical tA)).pos =
          (rotMatFor m.axis.canonical tA).mulVec cb.pos := rfl
      rw [if_pos (by rw [hpos]; exact hsel2)]
      rw [Cubit.rotate_rotate, rotMat_opposite_mul, Cubit.rotate_identity]
    · simp only [Function.comp_apply, if_neg hsel]
  rw [List.map_congr_left hpt, List.map_id']

/-! ### Claim theorems -/

/-- C9: for every `Move` (in particular every move built through the public
constructors), `Move::rotation_matrix` never signals `AxisConvert`:
normalization maps each directional axis to its canonical axis first, so it
always succeeds and the matrix lookup returns one of the nine table
entries. -/
theorem C9_rotation_matrix_never_fails (m : Move) :
    ∃ t, m.normalize_axis_move_type = some (m.axis.canonical, t) ∧
      m.rotation_matrix = some (rotMatFor m.axis.canonical t) := by
  rcases m with ⟨mt, ax, r⟩
  cases ax <;> exact ⟨_, rfl, rfl⟩

/-- C8: for `sides < 2`, `Cube::with_number_sides` returns the
`InvalidNumberSides` error carrying the offending value. -/
theorem C8_invalid_sides (s : Nat) (h : s < 2) :
    Cube.with_number_sides s = .error (Error.InvalidNumberSides s) := by
  unfold Cube.with_number_sides
  rw [if_pos h]

/-- Witness for `C8_invalid_sides` at `sides = 1`. -/
theorem C8_invalid_sides_witness :
    1 < 2 ∧ Cube.with_number_sides 1 = .error (Error.InvalidNumberSides 1) :=
  ⟨by decide, C8_invalid_sides 1 (by decide)⟩

/-- C4 counterexample: on the 2x2x2 cube, the cubit at `(-1,1,1)` (index 5
of the construction order) lies on the rotated `z = +1` layer, so the
top-`Single(0)`-clockwise move does NOT leave it untouched: it is moved to
`(1,1,1)` with a rotated orientation, refuting the claim as stated. -/
theorem C4_counterexample :
    cubeW.cubits.get? 5 = some (Cubit.std_from_position ⟨-1, 1, 1⟩) ∧
    (cubeW.rotate (Move.rotate_top (.Single 0) .Clockwise)).toOption = some cubeW_top0 ∧
    cubeW_top0.cubits.get? 5 = some ⟨⟨1, 1, 1⟩, ⟨0, -1, 0⟩, ⟨1, 0, 0⟩, ⟨0, 0, 1⟩⟩ ∧
    ¬ cubeW_top0.cubits.get? 5 = some (Cubit.std_from_position ⟨-1, 1, 1⟩) := by
  decide

/-- C4 (amended): on the 2x2x2 cube, rotating the face for canonical +Z with
`Single(0)` and `Clockwise` moves the cubit at `(1,1,1)` to `(1,-1,1)` and
leaves every cubit on the opposite layer (`z = -1`, among them the one at
`(1,1,-1)`) untouched, while the cubit at `(-1,1,1)` lies on the rotated
layer and is moved to `(1,1,1)`. -/
theorem C4_amended_top_cw :
    (cubeW.rotate (Move.rotate_top (.Single 0) .Clockwise)).toOption = some cubeW_top0 ∧
    cubeW.cubits.get? 7 = some (Cubit.std_from_position ⟨1, 1, 1⟩) ∧
    (cubeW_top0.cubits.get? 7).map Cubit.get_position = some ⟨1, -1, 1⟩ ∧
    cubeW.cubits.get? 3 = some (Cubit.std_from_position ⟨1, 1, -1⟩) ∧
    cubeW_top0.cubits.get? 0 = cubeW.cubits.get? 0 ∧
    cubeW_top0.cubits.get? 1 = cubeW.cubits.get? 1 ∧
    cubeW_top0.cubits.get? 2 = cubeW.cubits.get? 2 ∧
    cubeW_top0.cubits.get? 3 = cubeW.cubits.get? 3 ∧
    cubeW.cubits.get? 5 = some (Cubit.std_from_position ⟨-1, 1, 1⟩) ∧
    (cubeW_top0.cubits.get? 5).map Cubit.get_position = some ⟨1, 1, 1⟩ := by
  decide

/-- C10: on any cube, a `Multiple(0)` move on any directional face and any
turn passes validation (`0 ≤ sides`) and rotates no cubit — the resolved
range on the targeted axis is empty — so the cube is returned unchanged. -/
theorem C10_multiple_zero_noop (s : Nat) (c : Cube)
    (h : Cube.with_number_sides s = .ok c) (ax : AxisInner) (t : MoveType) :
    c.rotate ⟨t, ax, .Multiple 0⟩ = .ok c := by
  obtain ⟨t', hn, hr⟩ := normalize_total ⟨t, ax, .Multiple 0⟩
  rcases c with ⟨sides, cubits⟩
  unfold Cube.rotate
  rw [if_neg (by simp [Cube.badLayer]), hr]
  dsimp only
  have hf : ∀ cb ∈ cubits,
      (if Cube.inRanges (Cube.resolveRanges sides ⟨t, ax, .Multiple 0⟩) cb.pos
       then cb.rotate (rotMatFor (AxisInner.canonical ax) t') else cb) = cb := by
    intro cb _
    rw [if_neg]
    rw [Bool.not_eq_true]
    cases ax <;>
      simp [Cube.inRanges, Cube.resolveRanges, pos_range_zero_empty,
        neg_range_zero_empty]
  rw [List.map_congr_left hf, List.map_id']

/-- C5: `Cube::rotate` returns `InvalidMoveLayer` exactly when the layer is
`Single(l)` with `l ≥ sides` or `Multiple(n)` with `n > sides` (a
`WholeCube` layer never matches either); otherwise it succeeds. -/
theorem C5_invalid_move_layer_iff (c : Cube) (mv : Move) :
    (c.rotate mv = .error Error.InvalidMoveLayer ↔
      (∃ l, mv.affected_range = LayerInner.Single l ∧ c.sides ≤ l) ∨
      (∃ n, mv.affected_range = LayerInner.Multiple n ∧ c.sides < n)) ∧
    (¬ ((∃ l, mv.affected_range = LayerInner.Single l ∧ c.sides ≤ l) ∨
        (∃ n, mv.affected_range = LayerInner.Multiple n ∧ c.sides < n)) →
      ∃ c', c.rotate mv = .ok c') := by
  obtain ⟨t', hn, hr⟩ := normalize_total mv
  have hbad : Cube.badLayer c.sides mv.affected_range = true ↔
      ((∃ l, mv.affected_range = LayerInner.Single l ∧ c.sides ≤ l) ∨
       (∃ n, mv.affected_range = LayerInner.Multiple n ∧ c.sides < n)) := by
    cases h' : mv.affected_range <;> simp [Cube.badLayer]
  unfold Cube.rotate
  by_cases hb : Cube.badLayer c.sides mv.affected_range = true
  · rw [if_pos hb]
    exact ⟨by simp [hbad.mp hb], fun hD => absurd (hbad.mp hb) hD⟩
  · rw [if_neg hb, hr]
    dsimp only
    exact ⟨⟨fun hcontra => absurd hcontra (by simp),
            fun hD => absurd hD fun hD' => hb (hbad.mpr hD')⟩,
           fun _ => ⟨_, rfl⟩⟩

/-- Witness for `C5_invalid_move_layer_iff`: on a `sides = 3` cube a
`Single(3)` move fails with `InvalidMoveLayer` while `Single(2)`
succeeds. -/
theorem C5_invalid_move_layer_witness :
    cubeW3.rotate ⟨MoveType.Clockwise, AxisInner.Z, LayerInner.Single 3⟩ =
      .error Error.InvalidMoveLayer ∧
    ∃ c', cubeW3.rotate ⟨MoveType.Clockwise, AxisInner.Z, LayerInner.Single 2⟩ =
      .ok c' := by
  constructor
  · exact (C5_invalid_move_layer_iff cubeW3 ⟨.Clockwise, .Z, .Single 3⟩).1.mpr
      (Or.inl ⟨3, rfl, by decide⟩)
  · refine (C5_invalid_move_layer_iff cubeW3 ⟨.Clockwise, .Z, .Single 2⟩).2 ?_
    rintro (⟨l, hl, h⟩ | ⟨n, hn, h⟩)
    · cases hl; exact absurd h (by decide)
    · cases hn

/-- C2: a valid `Single(l)` move on any of the six directional faces rotates
exactly the cubits whose coordinate on the targeted canonical axis equals
`+offset − l·step` (positive-facing) or `−offset + l·step`
(negative-facing), and leaves every other cubit unchanged (for a cube whose
cubits lie within the full coordinate ranges, as all constructed and rotated
cubes do). -/
theorem C2_single_layer_rotation (c : Cube) (hb : InBounds c) (ax : AxisInner)
    (l : Nat) (hl : l < c.sides) (t : MoveType) :
    ∃ rot, Move.rotation_matrix ⟨t, ax, .Single l⟩ = some rot ∧
      c.rotate ⟨t, ax, .Single l⟩ = .ok ⟨c.sides, c.cubits.map fun cb =>
        if cb.pos.axisCoord ax.canonical = singleDepthCoord c.sides ax l
        then cb.rotate rot else cb⟩ := by
  obtain ⟨t', hn, hr⟩ := normalize_total ⟨t, ax, .Single l⟩
  refine ⟨_, hr, ?_⟩
  unfold Cube.rotate
  rw [if_neg (by simp only [Cube.badLayer, decide_eq_true_eq]; omega), hr]
  dsimp only
  refine congrArg Except.ok (congrArg (Cube.mk c.sides) ?_)
  apply List.map_congr_left
  intro cb hmem
  obtain ⟨h1, h2, h3, h4, h5, h6⟩ := hb cb hmem
  apply if_congr ?_ rfl rfl
  cases ax <;>
    (simp only [Cube.inRanges, Cube.resolveRanges, RangeI.containsB,
      Cube.pos_layer, Cube.neg_layer, Cube.full_range, Bool.and_eq_true,
      decide_eq_true_eq, Vec3.axisCoord, AxisInner.canonical,
      singleDepthCoord]
     set k := (l : Int) * (Cube.step c.sides : Int) with hk
     omega)

/-- Witness for `C2_single_layer_rotation` on the 2x2x2 cube, top face,
depth 0, clockwise. -/
theorem C2_single_layer_rotation_witness :
    InBounds cubeW ∧ 0 < cubeW.sides ∧
    (∃ rot, Move.rotation_matrix ⟨.Clockwise, .Z, .Single 0⟩ = some rot ∧
      cubeW.rotate ⟨.Clockwise, .Z, .Single 0⟩ = .ok ⟨cubeW.sides,
        cubeW.cubits.map fun cb =>
          if cb.pos.axisCoord AxisInner.Z.canonical =
              singleDepthCoord cubeW.sides .Z 0
          then cb.rotate rot else cb⟩) :=
  ⟨by decide, by decide,
   C2_single_layer_rotation cubeW (by decide) .Z 0 (by decide) .Clockwise⟩

/-- C6: rotating the negative-facing member of each opposite-face pair
clockwise on layer `Single(l)` yields exactly the same cube as rotating the
positive-facing member counter-clockwise on the layer at the equivalent
depth `Single(sides − 1 − l)`: bottom/top, left/right and back/front. -/
theorem C6_opposite_faces (s : Nat) (c : Cube)
    (h : Cube.with_number_sides s = .ok c) (l : Nat) (hl : l < s) :
    c.rotate (Move.rotate_bottom (.Single l) .Clockwise) =
      c.rotate (Move.rotate_top (.Single (s - 1 - l)) .CounterClockwise) ∧
    c.rotate (Move.rotate_left (.Single l) .Clockwise) =
      c.rotate (Move.rotate_right (.Single (s - 1 - l)) .CounterClockwise) ∧
    c.rotate (Move.rotate_back (.Single l) .Clockwise) =
      c.rotate (Move.rotate_front (.Single (s - 1 - l)) .CounterClockwise) := by
  obtain ⟨hs2, rfl⟩ := construct_ok s c h
  have hlay := neg_layer_eq_pos_layer s l (by omega) hl
  refine ⟨rotate_congr _ _ _ ?_ rfl ?_, rotate_congr _ _ _ ?_ rfl ?_,
    rotate_congr _ _ _ ?_ rfl ?_⟩ <;>
    simp only [Move.rotate_bottom, Move.rotate_top, Move.rotate_left,
      Move.rotate_right, Move.rotate_back, Move.rotate_front,
      LayerInner.fromLayer, Cube.badLayer, Cube.resolveRanges, hlay]
  all_goals rw [decide_eq_decide]; omega

/-- Witness for `C6_opposite_faces` on the 2x2x2 cube at depth 0. -/
theorem C6_opposite_faces_witness :
    Cube.with_number_sides 2 = .ok cubeW ∧ 0 < 2 ∧
    (cubeW.rotate (Move.rotate_bottom (.Single 0) .Clockwise) =
      cubeW.rotate (Move.rotate_top (.Single (2 - 1 - 0)) .CounterClockwise) ∧
    cubeW.rotate (Move.rotate_left (.Single 0) .Clockwise) =
      cubeW.rotate (Move.rotate_right (.Single (2 - 1 - 0)) .CounterClockwise) ∧
    cubeW.rotate (Move.rotate_back (.Single 0) .Clockwise) =
      cubeW.rotate (Move.rotate_front (.Single (2 - 1 - 0)) .CounterClockwise)) :=
  ⟨by rfl, by decide, C6_opposite_faces 2 cubeW (by rfl) 0 (by decide)⟩

/-- C3: on a constructed cube, applying any accepted move and then the move
with the same axis and layer but the inverted turn restores every cubit's
position and orientation — the cube round-trips to its pre-move state. -/
theorem C3_roundtrip (s : Nat) (c c1 c2 : Cube)
    (h : Cube.with_number_sides s = .ok c) (m : Move)
    (h1 : c.rotate m = .ok c1) (h2 : c1.rotate m.invert = .ok c2) :
    c2 = c := by
  have h3 := (rotate_invert c c1 m h1).symm.trans h2
  injection h3 with h4
  exact h4.symm

/-- Witness for `C3_roundtrip`: top-layer clockwise then counter-clockwise
on the 2x2x2 cube. -/
theorem C3_roundtrip_witness :
    Cube.with_number_sides 2 = .ok cubeW ∧
    cubeW.rotate (Move.rotate_top (.Single 0) .Clockwise) = .ok cubeW_top0 ∧
    cubeW_top0.rotate ((Move.rotate_top (.Single 0) .Clockwise).invert) =
      .ok cubeW_top0_inv ∧
    cubeW_top0_inv = cubeW :=
  ⟨by rfl, by rfl, by rfl,
   C3_roundtrip 2 cubeW cubeW_top0 cubeW_top0_inv (by rfl)
     (Move.rotate_top (.Single 0) .Clockwise) (by rfl) (by rfl)⟩

/-- Witness for `C10_multiple_zero_noop` on the 2x2x2 cube. -/
theorem C10_multiple_zero_noop_witness :
    Cube.with_number_sides 2 = .ok cubeW ∧
    cubeW.rotate ⟨MoveType.Clockwise, AxisInner.Z, LayerInner.Multiple 0⟩ = .ok cubeW :=
  ⟨by rfl, C10_multiple_zero_noop 2 cubeW (by rfl) .Z .Clockwise⟩



theorem length_filterMap_ite {α β : Type} (p : α → Bool) (g : α → β) (l : List α) :
    (l.filterMap fun i => if p i then some (g i) else none).length = l.countP p := by
  induction l with
  | nil => rfl
  | cons a l ih =>
    by_cases h : p a = true
    · simp [List.filterMap_cons, List.countP_cons, h, ih]
    · simp [List.filterMap_cons, List.countP_cons, h, ih]

theorem countP_range_card (n : Nat) (p : Nat → Bool) :
    (List.range n).countP p = ((Finset.range n).filter fun i => p i = true).card := by
  rw [List.countP_eq_length_filter, Finset.card, Finset.filter_val, Finset.range_val,
    Multiset.range, Multiset.filter_coe, Multiset.coe_card]
  refine congrArg List.length ?_
  simp

theorem digit_decomp (s i : Nat) :
    i = (i / s ^ 2) * s ^ 2 + ((i / s) % s) * s + i % s := by
  have h1 := Nat.div_add_mod i (s ^ 2)
  have h2 := Nat.div_add_mod (i % s ^ 2) s
  have h3 : (i % s ^ 2) % s = i % s :=
    Nat.mod_mod_of_dvd i ⟨s, by ring⟩
  have h4 : (i % s ^ 2) / s = (i / s) % s := by
    rw [pow_two]
    exact Nat.mod_mul_right_div_self i s s
  rw [h3, h4] at h2
  have h5 : s * ((i / s) % s) = ((i / s) % s) * s := Nat.mul_comm _ _
  have h6 : s ^ 2 * (i / s ^ 2) = (i / s ^ 2) * s ^ 2 := Nat.mul_comm _ _
  omega

theorem digit_mid (s d : Nat) (hs : 2 ≤ s) (hd : d < s) :
    ¬ d % (s - 1) = 0 ↔ 1 ≤ d ∧ d ≤ s - 2 := by
  constructor
  · intro h
    rcases Nat.eq_zero_or_pos d with rfl | hpos
    · simp at h
    refine ⟨hpos, ?_⟩
    by_contra hgt
    push_neg at hgt
    have hd1 : d = s - 1 := by omega
    subst hd1
    exact h (Nat.mod_self _)
  · intro ⟨h1, h2⟩
    rw [Nat.mod_eq_of_lt (by omega)]
    omega

theorem digit_edge (s d : Nat) (hd : d < s) (h : d % (s - 1) = 0) :
    d = 0 ∨ d = s - 1 := by
  rcases Nat.eq_zero_or_pos d with rfl | hpos
  · left; rfl
  · right
    have hdvd : (s - 1) ∣ d := Nat.dvd_of_mod_eq_zero h
    have hle : s - 1 ≤ d := Nat.le_of_dvd hpos hdvd
    omega

theorem psi_digits (s a b c : Nat) (hs : 2 ≤ s) (ha : a < s - 2) (hb : b < s - 2)
    (hc : c < s - 2) :
    ((c + 1) * s ^ 2 + (a + 1) * s + (b + 1)) % s = b + 1 ∧
    (((c + 1) * s ^ 2 + (a + 1) * s + (b + 1)) / s) % s = a + 1 ∧
    ((c + 1) * s ^ 2 + (a + 1) * s + (b + 1)) / s ^ 2 = c + 1 ∧
    (c + 1) * s ^ 2 + (a + 1) * s + (b + 1) < s ^ 3 := by
  have ha' : a + 1 < s := by omega
  have hb' : b + 1 < s := by omega
  have hc' : c + 1 < s := by omega
  have hs0 : 0 < s := by omega
  have hrem : (a + 1) * s + (b + 1) < s ^ 2 := by
    calc (a + 1) * s + (b + 1) < (a + 1) * s + s := by omega
    _ = (a + 2) * s := by ring
    _ ≤ s * s := Nat.mul_le_mul_right s (by omega)
    _ = s ^ 2 := by ring
  refine ⟨?_, ?_, ?_, ?_⟩
  · rw [show (c + 1) * s ^ 2 + (a + 1) * s + (b + 1)
        = (b + 1) + ((c + 1) * s + (a + 1)) * s by ring]
    rw [Nat.add_mul_mod_self_right]
    exact Nat.mod_eq_of_lt hb'
  · rw [show (c + 1) * s ^ 2 + (a + 1) * s + (b + 1)
        = (b + 1) + ((a + 1) + (c + 1) * s) * s by ring]
    rw [Nat.add_mul_div_right _ _ hs0, Nat.div_eq_of_lt hb', Nat.zero_add,
      Nat.add_mul_mod_self_right]
    exact Nat.mod_eq_of_lt ha'
  · rw [show (c + 1) * s ^ 2 + (a + 1) * s + (b + 1)
        = ((a + 1) * s + (b + 1)) + (c + 1) * s ^ 2 by ring]
    rw [Nat.add_mul_div_right _ _ (by positivity : 0 < s ^ 2),
      Nat.div_eq_of_lt hrem, Nat.zero_add]
  · calc (c + 1) * s ^ 2 + (a + 1) * s + (b + 1)
        = ((a + 1) * s + (b + 1)) + (c + 1) * s ^ 2 := by ring
    _ < s ^ 2 + (c + 1) * s ^ 2 := Nat.add_lt_add_right hrem _
    _ = (c + 2) * s ^ 2 := by ring
    _ ≤ s * s ^ 2 := Nat.mul_le_mul_right _ (by omega)
    _ = s ^ 3 := by ring


theorem notshell_card (s : Nat) (hs : 2 ≤ s) :
    ((Finset.range (s ^ 3)).filter fun i => ¬ Cube.shell_filter s i = true).card
      = (s - 2) ^ 3 := by
  have hcard : ((Finset.range (s ^ 3)).filter fun i => ¬ Cube.shell_filter s i = true).card
      = ((Finset.range (s - 2)) ×ˢ ((Finset.range (s - 2)) ×ˢ (Finset.range (s - 2)))).card := by
    apply Finset.card_nbij'
      (fun i => ((i / s) % s - 1, i % s - 1, i / s ^ 2 - 1))
      (fun p => (p.2.2 + 1) * s ^ 2 + (p.1 + 1) * s + (p.2.1 + 1))
    · intro i hi
      simp only [Finset.mem_filter, Finset.mem_range, Cube.shell_filter,
        Bool.or_eq_true, beq_iff_eq, not_or] at hi
      obtain ⟨hilt, ⟨h1, h2⟩, h3⟩ := hi
      have hd1 : (i / s) % s < s := Nat.mod_lt _ (by omega)
      have hd0 : i % s < s := Nat.mod_lt _ (by omega)
      have hd2 : i / s ^ 2 < s := by
        rw [Nat.div_lt_iff_lt_mul (by positivity)]
        have hc : s ^ 3 = s * s ^ 2 := by ring
        omega
      have e1 := (digit_mid s _ hs hd1).mp h1
      have e0 := (digit_mid s _ hs hd0).mp h2
      have e2 := (digit_mid s _ hs hd2).mp h3
      simp only [Finset.mem_product, Finset.mem_range]
      refine ⟨?_, ?_, ?_⟩ <;> omega
    · intro p hp
      rcases p with ⟨a, b, c⟩
      simp only [Finset.mem_product, Finset.mem_range] at hp
      obtain ⟨ha, hb, hc⟩ := hp
      obtain ⟨e0, e1, e2, elt⟩ := psi_digits s a b c hs ha hb hc
      simp only [Finset.mem_filter, Finset.mem_range, Cube.shell_filter,
        Bool.or_eq_true, beq_iff_eq, not_or]
      refine ⟨elt, ⟨?_, ?_⟩, ?_⟩
      · rw [e1, Nat.mod_eq_of_lt (by omega)]; omega
      · rw [e0, Nat.mod_eq_of_lt (by omega)]; omega
      · rw [e2, Nat.mod_eq_of_lt (by omega)]; omega
    · intro i hi
      simp only [Finset.mem_filter, Finset.mem_range, Cube.shell_filter,
        Bool.or_eq_true, beq_iff_eq, not_or] at hi
      obtain ⟨hilt, ⟨h1, h2⟩, h3⟩ := hi
      have hd1 : (i / s) % s < s := Nat.mod_lt _ (by omega)
      have hd0 : i % s < s := Nat.mod_lt _ (by omega)
      have hd2 : i / s ^ 2 < s := by
        rw [Nat.div_lt_iff_lt_mul (by positivity)]
        have hc : s ^ 3 = s * s ^ 2 := by ring
        omega
      have e1 := (digit_mid s _ hs hd1).mp h1
      have e0 := (digit_mid s _ hs hd0).mp h2
      have e2 := (digit_mid s _ hs hd2).mp h3
      dsimp only
      rw [Nat.sub_add_cancel (by omega), Nat.sub_add_cancel (by omega),
        Nat.sub_add_cancel (by omega)]
      exact (digit_decomp s i).symm
    · intro p hp
      rcases p with ⟨a, b, c⟩
      simp only [Finset.mem_product, Finset.mem_range] at hp
      obtain ⟨ha, hb, hc⟩ := hp
      obtain ⟨e0, e1, e2, elt⟩ := psi_digits s a b c hs ha hb hc
      dsimp only
      rw [e0, e1, e2]
      simp only [Nat.add_sub_cancel]
  rw [hcard]
  simp only [Finset.card_product, Finset.card_range]
  ring

theorem shell_filter_card (s : Nat) (hs : 2 ≤ s) :
    ((Finset.range (s ^ 3)).filter fun i => Cube.shell_filter s i = true).card
      = s ^ 3 - (s - 2) ^ 3 := by
  have hsplit := Finset.filter_card_add_filter_neg_card_eq_card
    (s := Finset.range (s ^ 3)) (p := fun i => Cube.shell_filter s i = true)
  rw [Finset.card_range, notshell_card s hs] at hsplit
  have hle : (s - 2) ^ 3 ≤ s ^ 3 := Nat.pow_le_pow_left (by omega) 3
  omega


/-- The coordinate of an edge digit (0 or `sides-1`) is `−offset` or
`+offset` respectively. -/
theorem edge_coord (s d : Nat) (hs : 2 ≤ s) (hedge : d = 0 ∨ d = s - 1) :
    (d : Int) * (Cube.step s : Int) - (Cube.offset s : Int) = -(Cube.offset s : Int) ∨
    (d : Int) * (Cube.step s : Int) - (Cube.offset s : Int) = (Cube.offset s : Int) := by
  have h2 := two_offset_int s (by omega)
  rcases hedge with rfl | rfl
  · left; push_cast; ring
  · right
    have hc : ((s - 1 : Nat) : Int) = (s : Int) - 1 := by omega
    rw [hc]
    linear_combination -h2

/-- Every cubit produced by the construction enumeration sits on the lattice
and the shell, in standard orientation. -/
theorem construct_cubit_facts (s : Nat) (hs : 2 ≤ s) (cb : Cubit)
    (hmem : cb ∈ (List.range (s ^ 3)).filterMap fun i =>
      if Cube.shell_filter s i then
        some (Cubit.std_from_position (Cube.index_to_coords s i))
      else none) :
    PosOk s cb.pos ∧ cb = Cubit.std_from_position cb.pos := by
  rw [List.mem_filterMap] at hmem
  obtain ⟨i, hir, hf⟩ := hmem
  rw [List.mem_range] at hir
  by_cases hsh : Cube.shell_filter s i = true
  case neg => rw [if_neg hsh] at hf; cases hf
  rw [if_pos hsh] at hf
  injection hf with hf
  subst hf
  refine ⟨?_, rfl⟩
  show PosOk s (Cube.index_to_coords s i)
  have hd1lt : (i / s) % s < s := Nat.mod_lt _ (by omega)
  have hd0lt : i % s < s := Nat.mod_lt _ (by omega)
  have hd2lt : i / s ^ 2 < s := by
    rw [Nat.div_lt_iff_lt_mul (by positivity)]
    have hc : s ^ 3 = s * s ^ 2 := by ring
    omega
  have hd2m : (i / s ^ 2) % s = i / s ^ 2 := Nat.mod_eq_of_lt hd2lt
  simp only [Cube.shell_filter, Bool.or_eq_true, beq_iff_eq] at hsh
  refine ⟨⟨(i / s) % s, hd1lt, rfl⟩, ⟨i % s, hd0lt, rfl⟩,
    ⟨(i / s ^ 2) % s, Nat.mod_lt _ (by omega), rfl⟩, ?_⟩
  have hz : (((i / s ^ 2) % s : Nat) : Int) * (Cube.step s : Int) - (Cube.offset s : Int)
      = ((i / s ^ 2 : Nat) : Int) * (Cube.step s : Int) - (Cube.offset s : Int) := by
    rw [hd2m]
  rcases hsh with (h | h) | h
  · rcases edge_coord s ((i / s) % s) hs (digit_edge s _ hd1lt h) with he | he
    · exact Or.inr (Or.inl he)
    · exact Or.inl he
  · rcases edge_coord s (i % s) hs (digit_edge s _ hd0lt h) with he | he
    · exact Or.inr (Or.inr (Or.inr (Or.inl he)))
    · exact Or.inr (Or.inr (Or.inl he))
  · rcases edge_coord s (i / s ^ 2) hs (digit_edge s _ hd2lt h) with he | he
    · exact Or.inr (Or.inr (Or.inr (Or.inr (Or.inr (hz.trans he)))))
    · exact Or.inr (Or.inr (Or.inr (Or.inr (Or.inl (hz.trans he)))))

/-- C1: for every `sides ≥ 2` the construction succeeds, yields exactly
`sides³ − (sides−2)³` cubits, and every cubit position lies on the
coordinate lattice and on the shell (at least one coordinate is
`±offset`). -/
theorem C1_construct_count_shell (s : Nat) (hs : 2 ≤ s) :
    ∃ c, Cube.with_number_sides s = .ok c ∧
      c.cubits.length = s ^ 3 - (s - 2) ^ 3 ∧
      ∀ cb ∈ c.cubits, PosOk s cb.pos := by
  have hok : Cube.with_number_sides s = .ok ⟨s,
      (List.range (s ^ 3)).filterMap fun i =>
        if Cube.shell_filter s i then
          some (Cubit.std_from_position (Cube.index_to_coords s i))
        else none⟩ := by
    unfold Cube.with_number_sides
    rw [if_neg (by omega)]
  refine ⟨_, hok, ?_, ?_⟩
  · dsimp only
    rw [length_filterMap_ite, countP_range_card, shell_filter_card s hs]
  · intro cb hmem
    exact (construct_cubit_facts s hs cb hmem).1

/-- Witness for `C1_construct_count_shell` at `sides = 3`. -/
theorem C1_construct_count_shell_witness :
    2 ≤ 3 ∧ ∃ c, Cube.with_number_sides 3 = .ok c ∧
      c.cubits.length = 3 ^ 3 - (3 - 2) ^ 3 ∧
      ∀ cb ∈ c.cubits, PosOk 3 cb.pos :=
  ⟨by decide, C1_construct_count_shell 3 (by decide)⟩


/-- The per-axis lattice is symmetric about 0. -/
theorem latticeCoord_neg (s : Nat) (hs : 2 ≤ s) (x : Int) (h : latticeCoord s x) :
    latticeCoord s (-x) := by
  obtain ⟨j, hj, rfl⟩ := h
  refine ⟨s - 1 - j, by omega, ?_⟩
  have h2 := two_offset_int s (by omega)
  have hc : ((s - 1 - j : Nat) : Int) = (s : Int) - 1 - (j : Int) := by omega
  rw [hc]
  linear_combination h2

theorem latticeCoord_of_pm (s : Nat) (hs : 2 ≤ s) (w p q : Int)
    (hp : latticeCoord s p) (hq : latticeCoord s q)
    (h : w = p ∨ w = -p ∨ w = q ∨ w = -q) : latticeCoord s w := by
  rcases h with rfl | rfl | rfl | rfl
  · exact hp
  · exact latticeCoord_neg s hs _ hp
  · exact hq
  · exact latticeCoord_neg s hs _ hq

/-- Every table matrix preserves lattice-and-shell positions. -/
theorem posOk_rot (s : Nat) (hs : 2 ≤ s) (a : Axis) (t : MoveType) (v : Vec3)
    (h : PosOk s v) : PosOk s ((rotMatFor a t).mulVec v) := by
  obtain ⟨hx, hy, hz, hsh⟩ := h
  cases a
  case X =>
    obtain ⟨hc, hy', hz'⟩ := famX t v
    refine ⟨by rw [hc]; exact hx,
      latticeCoord_of_pm s hs _ _ _ hy hz hy',
      latticeCoord_of_pm s hs _ _ _ hy hz hz', ?_⟩
    cases t <;>
      (rcases v with ⟨x, y, z⟩
       simp only [onShell, rotMatFor, ROT_MAT_X_CW, ROT_MAT_X_CCW, ROT_MAT_X_2,
         Mat3.mulVec] at hsh ⊢
       omega)
  case Y =>
    obtain ⟨hc, hx', hz'⟩ := famY t v
    refine ⟨latticeCoord_of_pm s hs _ _ _ hx hz hx',
      by rw [hc]; exact hy,
      latticeCoord_of_pm s hs _ _ _ hx hz hz', ?_⟩
    cases t <;>
      (rcases v with ⟨x, y, z⟩
       simp only [onShell, rotMatFor, ROT_MAT_Y_CW, ROT_MAT_Y_CCW, ROT_MAT_Y_2,
         Mat3.mulVec] at hsh ⊢
       omega)
  case Z =>
    obtain ⟨hc, hx', hy'⟩ := famZ t v
    refine ⟨latticeCoord_of_pm s hs _ _ _ hx hy hx',
      latticeCoord_of_pm s hs _ _ _ hx hy hy',
      by rw [hc]; exact hz, ?_⟩
    cases t <;>
      (rcases v with ⟨x, y, z⟩
       simp only [onShell, rotMatFor, ROT_MAT_Z_CW, ROT_MAT_Z_CCW, ROT_MAT_Z_2,
         Mat3.mulVec] at hsh ⊢
       omega)

/-- Every table matrix preserves dot products (it is orthogonal). -/
theorem dot_rot (a : Axis) (t : MoveType) (u v : Vec3) :
    ((rotMatFor a t).mulVec u).dot ((rotMatFor a t).mulVec v) = u.dot v := by
  cases a <;> cases t <;>
    (rcases u with ⟨ux, uy, uz⟩
     rcases v with ⟨vx, vy, vz⟩
     simp only [rotMatFor, ROT_MAT_X_CW, ROT_MAT_X_CCW, ROT_MAT_X_2,
       ROT_MAT_Y_CW, ROT_MAT_Y_CCW, ROT_MAT_Y_2,
       ROT_MAT_Z_CW, ROT_MAT_Z_CCW, ROT_MAT_Z_2, Mat3.mulVec, Vec3.dot]
     ring)

/-- Every table matrix maps signed basis vectors to signed basis vectors. -/
theorem signedBasis_rot (a : Axis) (t : MoveType) (v : Vec3)
    (h : isSignedBasis v) : isSignedBasis ((rotMatFor a t).mulVec v) := by
  cases a <;> cases t <;>
    (rcases h with rfl | rfl | rfl | rfl | rfl | rfl <;> decide)

/-- Every table matrix preserves the orientation invariant. -/
theorem oriOk_rot (a : Axis) (t : MoveType) (cb : Cubit) (h : OriOk cb) :
    OriOk (cb.rotate (rotMatFor a t)) := by
  obtain ⟨h1, h2, h3, h4, h5, h6⟩ := h
  exact ⟨signedBasis_rot a t _ h1, signedBasis_rot a t _ h2,
    signedBasis_rot a t _ h3,
    (dot_rot a t _ _).trans h4, (dot_rot a t _ _).trans h5,
    (dot_rot a t _ _).trans h6⟩

/-- A cubit in standard orientation satisfies the orientation invariant. -/
theorem oriOk_std (p : Vec3) : OriOk (Cubit.std_from_position p) := by
  refine ⟨?_, ?_, ?_, ?_, ?_, ?_⟩ <;>
    simp [Cubit.std_from_position, Cubit.new, isSignedBasis, Vec3.dot]

/-- Reachability implies the side count is valid and stored. -/
theorem reachable_sides (s : Nat) (c : Cube) (h : Reachable s c) :
    2 ≤ s ∧ c.sides = s := by
  induction h with
  | constructed c hc =>
    obtain ⟨hs2, rfl⟩ := construct_ok s c hc
    exact ⟨hs2, rfl⟩
  | step c mv c' hr hrot ih =>
    obtain ⟨hs2, hsides⟩ := ih
    obtain ⟨hb, t, hn, hc'⟩ := rotate_ok_inv c c' mv hrot
    subst hc'
    exact ⟨hs2, hsides⟩

/-- C7: after construction and any finite sequence of successful rotations,
every cubit position is on the lattice and the shell, and every cubit's
orientation vectors are mutually orthogonal signed basis vectors. -/
theorem C7_state_invariants (s : Nat) (c : Cube) (h : Reachable s c) :
    ∀ cb ∈ c.cubits, PosOk s cb.pos ∧ OriOk cb := by
  induction h with
  | constructed c hc =>
    obtain ⟨hs2, rfl⟩ := construct_ok s c hc
    intro cb hmem
    obtain ⟨hpos, hstd⟩ := construct_cubit_facts s hs2 cb hmem
    refine ⟨hpos, ?_⟩
    rw [hstd]
    exact oriOk_std _
  | step c mv c' hr hrot ih =>
    have hs2 := (reachable_sides s c hr).1
    obtain ⟨hb, t, hn, hc'⟩ := rotate_ok_inv c c' mv hrot
    subst hc'
    intro cb hmem
    dsimp only at hmem
    rw [List.mem_map] at hmem
    obtain ⟨cb0, hmem0, rfl⟩ := hmem
    obtain ⟨hpos0, hori0⟩ := ih cb0 hmem0
    by_cases hsel : Cube.inRanges (Cube.resolveRanges c.sides mv) cb0.pos = true
    · rw [if_pos hsel]
      exact ⟨posOk_rot s hs2 _ t cb0.pos hpos0, oriOk_rot _ _ _ hori0⟩
    · rw [if_neg hsel]
      exact ⟨hpos0, hori0⟩

/-- Witness for `C7_state_invariants` after one rotation of the 2x2x2
cube. -/
theorem C7_state_invariants_witness :
    Cubit.new ⟨-1, -1, -1⟩ ⟨1, 0, 0⟩ ⟨0, 1, 0⟩ ⟨0, 0, 1⟩ ∈ cubeW_top0.cubits ∧
    (PosOk 2 (Cubit.new ⟨-1, -1, -1⟩ ⟨1, 0, 0⟩ ⟨0, 1, 0⟩ ⟨0, 0, 1⟩).pos ∧
      OriOk (Cubit.new ⟨-1, -1, -1⟩ ⟨1, 0, 0⟩ ⟨0, 1, 0⟩ ⟨0, 0, 1⟩)) :=
  ⟨by decide,
   C7_state_invariants 2 cubeW_top0
     (Reachable.step cubeW (Move.rotate_top (.Single 0) .Clockwise) cubeW_top0
       (Reachable.constructed cubeW (by rfl)) (by rfl))
     (Cubit.new ⟨-1, -1, -1⟩ ⟨1, 0, 0⟩ ⟨0, 1, 0⟩ ⟨0, 0, 1⟩) (by decide)⟩

end PuzzleCube



